import Mathlib

/-!
# autoscan: the Emby target and the A-Train trigger

A shallow embedding of `targets/emby/emby.go` and `triggers/a_train/a_train.go`.

* Go strings are byte sequences; `strings.HasPrefix` compares bytes.
* A Go `error` result is an `Option GoError` (`none` is `nil`); a `(value, error)`
  result is an `Except GoError value`.
* Effects are made explicit: a function that talks to the media server returns
  the ordered list of remote calls it made, and the HTTP handler returns the
  ordered list of status codes written and of batches handed to the processor.
* Logging is left out: it has no influence on any returned value or remote call.
* Collaborators that live outside the two files (the rewriter compiler, the API
  client, the JSON decoder, the clock) are parameters of the functions using them.
* The rule slices of the trigger's configuration are Go slices over backing arrays held
  in an explicit memory, because `append` in the trigger's `New` writes into spare
  capacity of the slice it is given.
-/

namespace autoscan

/-- A Go string: an immutable sequence of bytes. -/
abbrev GoString := List UInt8

/-- The bytes of a string literal, that is its UTF-8 encoding. -/
def str (s : String) : GoString := s.toList.flatMap String.utf8EncodeChar

/-- A Go error value, identified by its message. -/
structure GoError where
  msg : GoString
deriving DecidableEq

/-- Go's `strings.HasPrefix(s, prefix)`:
`len(s) >= len(prefix) && s[:len(prefix)] == prefix`. -/
def HasPrefix (s pre : GoString) : Bool :=
  decide (s.length ≥ pre.length) && (s.take pre.length == pre)

/-- The type `autoscan.Rewrite`: one rewrite rule of the configuration. -/
structure Rewrite where
  From : GoString
  To : GoString
deriving DecidableEq

/-- The type `autoscan.Rewriter`: a compiled rule list. -/
abbrev Rewriter := GoString → GoString

/-- The signature of `autoscan.NewRewriter`, the rule compiler the two packages call. The
compiled function is determined by the rules the slice holds at the time of the call. -/
abbrev RewriterCompiler := List Rewrite → Except GoError Rewriter

/-- A Go slice of rules, `[]autoscan.Rewrite`: the backing array it points into, the offset
of its first element in that array, its length and its capacity. -/
structure Slice where
  arr : Nat
  off : Nat
  len : Nat
  cap : Nat
deriving DecidableEq

/-- The backing arrays of rules, by number. -/
abbrev Memory := List (List Rewrite)

/-- The nil slice. -/
def Slice.nil : Slice := ⟨0, 0, 0, 0⟩

/-- The elements of a slice: `len` cells of its backing array, from `off` on. -/
def Slice.read (s : Slice) (mem : Memory) : List Rewrite :=
  ((mem.getD s.arr []).drop s.off).take s.len

/-- Copy `vals` into the cells of an array from position `pos` on. -/
def writeAt : List Rewrite → Nat → List Rewrite → List Rewrite
  | a, _, [] => a
  | a, pos, v :: vs => writeAt (a.set pos v) (pos + 1) vs

/-- Go's built-in `append(s, elems...)` on rule slices. When the capacity of `s` suffices
the elements are copied into the backing array of `s`, right behind its last element,
and the result shares that array; otherwise the result lives in a fresh array that
nothing else points at (its capacity, which Go rounds up, is given as the length here and
is read by nothing). The elements to copy are read before anything is written. -/
def appendRules (mem : Memory) (s elems : Slice) : Memory × Slice :=
  let vals := elems.read mem
  if s.len + elems.len ≤ s.cap then
    (mem.set s.arr (writeAt (mem.getD s.arr []) (s.off + s.len) vals),
     { s with len := s.len + elems.len })
  else
    (mem ++ [s.read mem ++ vals], ⟨mem.length, 0, s.len + elems.len, s.len + elems.len⟩)

/-- The slice lies within its backing array, as every slice of a Go program does. -/
def Slice.valid (s : Slice) (mem : Memory) : Prop :=
  s.len ≤ s.cap ∧ s.off + s.cap ≤ (mem.getD s.arr []).length

/-- The call `append(s, elems...)` writes in place and one of the cells it writes is an
element of the slice `t`. -/
def overwrites (s elems t : Slice) : Prop :=
  s.len + elems.len ≤ s.cap ∧ s.arr = t.arr ∧
    s.off + s.len < t.off + t.len ∧ t.off < s.off + s.len + elems.len

/-- A point in time as returned by the clock. -/
abbrev Time := Nat

/-- The type `autoscan.Scan`, with the three fields the trigger fills in. -/
structure Scan where
  Folder : GoString
  Priority : Int
  Time : Time
deriving DecidableEq

/-- The type `autoscan.ProcessorFunc`: `func(...Scan) error`. -/
abbrev ProcessorFunc := List Scan → Option GoError

/-! ## A concrete rule compiler for the scenarios -/

/-- The bytes that have a special meaning in a regular expression. -/
def metaBytes : GoString := str "\\.+*?()|[]\x7b\x7d^$"

/-- Whether a pattern is plain text: not empty and free of regular-expression operators. -/
def isLiteral (pat : GoString) : Bool :=
  !pat.isEmpty && pat.all (fun b => !(metaBytes.contains b))

/-- Replace every non-overlapping occurrence of the text `pat` by `repl`, scanning from the
left. The counter is the number of input bytes still covered by the last match. -/
def replaceAllLiteral (pat repl : GoString) : Nat → GoString → GoString
  | _, [] => []
  | skip + 1, _ :: cs => replaceAllLiteral pat repl skip cs
  | 0, c :: cs =>
    if !pat.isEmpty && HasPrefix (c :: cs) pat then
      repl ++ replaceAllLiteral pat repl (pat.length - 1) cs
    else
      c :: replaceAllLiteral pat repl 0 cs

/-- The substitution chain: every rule in order, each on the output of the previous one. -/
def applyRules : List Rewrite → Rewriter
  | [], input => input
  | rule :: rest, input => applyRules rest (replaceAllLiteral rule.From rule.To 0 input)

/-- Modelled from the spec: `autoscan.NewRewriter` lives in the root package, which is
not among the source files. The spec (4.1) says: compilation fails when a rule's pattern
is not a valid pattern; the compiled function applies all rules in the order given, each
operating on the output of the previous one, and returns unmatched input unchanged.
The pattern language modelled here is the plain-text fragment only: a non-empty pattern
without regular-expression operators matches its own text, the replacement text (taken
to hold no `$` template) is inserted as is, and any pattern outside the fragment is
reported as a compile error. It serves the concrete scenarios; the general theorems hold
for every compiler. -/
def NewRewriter : RewriterCompiler := fun rules =>
  match rules.find? (fun rule => !isLiteral rule.From) with
  | some rule => .error ⟨str "error parsing regexp: " ++ rule.From⟩
  | none => .ok (applyRules rules)

end autoscan

namespace emby

open autoscan

/-- The struct `Config` of the Emby target. -/
structure Config where
  URL : GoString
  Token : GoString
  Rewrite : List Rewrite
  Verbosity : GoString

/-- Modelled from the spec: the type `library` is declared in the package's API file,
which is not among the source files. The spec (3): `Library: { name, path }`. -/
structure library where
  Name : GoString
  Path : GoString
deriving DecidableEq

/-- A call sent to the remote media server. -/
inductive RemoteCall where
  | Libraries
  | Available
  | Scan (path : GoString)
deriving DecidableEq

/-- Modelled from the spec: the type `apiClient` is declared in the package's API file,
which is not among the source files. The spec (6) lists its three operations:
`listLibraries() -> (sequence of Library, error)`, `scanFolder(path) -> error` and
`checkAvailable() -> error`. Each field is the answer of the remote server. -/
structure apiClient where
  Libraries : Except GoError (List library)
  Scan : GoString → Option GoError
  Available : Option GoError

/-- The struct `target` (the logger left out). -/
structure target where
  url : GoString
  token : GoString
  libraries : List library
  rewrite : Rewriter
  api : apiClient

/-- The function `New` of the Emby target, with the remote calls it makes. -/
def New (NewRewriter : RewriterCompiler) (newAPIClient : GoString → GoString → apiClient)
    (c : Config) : Except GoError target × List RemoteCall :=
  match NewRewriter c.Rewrite with
  | .error err => (.error err, [])
  | .ok rewriter =>
    let api := newAPIClient c.URL c.Token
    match api.Libraries with
    | .error err => (.error err, [RemoteCall.Libraries])
    | .ok libraries =>
      (.ok { url := c.URL, token := c.Token, libraries := libraries,
             rewrite := rewriter, api := api },
       [RemoteCall.Libraries])

/-- The method `target.Available`. -/
def target.Available (t : target) : Option GoError × List RemoteCall :=
  (t.api.Available, [RemoteCall.Available])

/-- The loop of `getScanLibrary` over the libraries still to visit. -/
def getScanLibraryLoop (folder : GoString) : List library → Except GoError library
  | [] => .error ⟨folder ++ str ": failed determining library"⟩
  | l :: rest => if HasPrefix folder l.Path then .ok l else getScanLibraryLoop folder rest

/-- The method `target.getScanLibrary`. -/
def target.getScanLibrary (t : target) (folder : GoString) : Except GoError library :=
  getScanLibraryLoop folder t.libraries

/-- The method `target.Scan`, with the remote calls it makes. -/
def target.Scan (t : target) (scan : autoscan.Scan) : Option GoError × List RemoteCall :=
  let scanFolder := t.rewrite scan.Folder
  match t.getScanLibrary scanFolder with
  | .error _ => (none, [])
  | .ok _ =>
    match t.api.Scan scanFolder with
    | some err => (some err, [RemoteCall.Scan scanFolder])
    | none => (none, [RemoteCall.Scan scanFolder])

end emby

namespace a_train

open autoscan

/-- The struct `Drive`. -/
structure Drive where
  ID : GoString
  Rewrite : Slice

/-- The struct `Config` of the A-Train trigger. -/
structure Config where
  Drives : List Drive
  Priority : Int
  Rewrite : Slice
  Verbosity : GoString

/-- The type `ATrainRewriter`: `func(drive string, input string) string`. -/
abbrev ATrainRewriter := GoString → GoString → GoString

/-- A Go `map[string]autoscan.Rewriter`. -/
abbrev RewriterMap := GoString → Option Rewriter

/-- The map `make(map[string]autoscan.Rewriter)`. -/
def emptyMap : RewriterMap := fun _ => none

/-- The assignment `m[key] = value`. -/
def mapSet (m : RewriterMap) (key : GoString) (value : Rewriter) : RewriterMap :=
  fun k => if k = key then some value else m k

/-- The struct `handler`. -/
structure handler where
  priority : Int
  rewrite : ATrainRewriter
  callback : ProcessorFunc

/-- The type `autoscan.HTTPTrigger`: `func(ProcessorFunc) http.Handler`. -/
abbrev HTTPTrigger := ProcessorFunc → handler

/-- The loop of `New` over the drives still to compile. Each round appends the global
rules to the drive's slice, which may write into memory, and compiles the result as it
stands in memory after the append. The state is the memory and the map `rewrites`. -/
def compileDrives (NewRewriter : RewriterCompiler) (global : Slice) :
    List Drive → Memory → RewriterMap → Except GoError (Memory × RewriterMap)
  | [], mem, rewrites => .ok (mem, rewrites)
  | drive :: rest, mem, rewrites =>
    let appended := appendRules mem drive.Rewrite global
    match NewRewriter (appended.2.read appended.1) with
    | .error err => .error err
    | .ok rewriter =>
      compileDrives NewRewriter global rest appended.1 (mapSet rewrites drive.ID rewriter)

/-- The closure `rewriter` of `New`, over the variables it captures. -/
def New.rewriter (rewrites : RewriterMap) (globalRewriter : Rewriter) : ATrainRewriter :=
  fun drive input =>
    match rewrites drive with
    | none => globalRewriter input
    | some driveRewriter => driveRewriter input

/-- The closure `trigger` of `New`, over the variables it captures. -/
def New.trigger (c : Config) (rewriter : ATrainRewriter) : HTTPTrigger :=
  fun callback => { callback := callback, priority := c.Priority, rewrite := rewriter }

/-- The function `New` of the A-Train trigger, called with the configuration `c` whose
rule slices live in `mem`. The global rewriter is compiled from `c.Rewrite` as it stands
in memory after the loop. -/
def New (NewRewriter : RewriterCompiler) (mem : Memory) (c : Config) :
    Except GoError HTTPTrigger :=
  match compileDrives NewRewriter c.Rewrite c.Drives mem emptyMap with
  | .error err => .error err
  | .ok (mem', rewrites) =>
    match NewRewriter (c.Rewrite.read mem') with
    | .error err => .error err
    | .ok globalRewriter => .ok (New.trigger c (New.rewriter rewrites globalRewriter))

/-- The struct `atrainEvent`. -/
structure atrainEvent where
  Created : List GoString
  Deleted : List GoString
deriving DecidableEq

/-- An incoming request: the route's `drive` path parameter when the route has one,
and the body. -/
structure Request where
  drive : Option GoString
  Body : GoString

/-- The call `chi.URLParam(r, "drive")`: the parameter's value, the empty string when
the request carries none. -/
def URLParam (r : Request) : GoString :=
  match r.drive with
  | some d => d
  | none => []

/-- What a request leaves behind: the status codes written to the response and the
batches handed to the processor callback, both in order. -/
structure Outcome where
  statuses : List Nat
  callbacks : List (List Scan)
deriving DecidableEq

/-- One of the two `for _, path := range ...` loops of `ServeHTTP`. The state is the
slice `scans` and the number of calls made to `now` so far. -/
def scanLoop (h : handler) (now : Nat → Time) (drive : GoString) :
    List GoString → List Scan × Nat → List Scan × Nat
  | [], st => st
  | path :: rest, (scans, tick) =>
    let rewrittenPath := h.rewrite drive path
    scanLoop h now drive rest
      (scans ++ [{ Folder := rewrittenPath, Priority := h.priority, Time := now tick }],
       tick + 1)

/-- The slice `scans` of `ServeHTTP` after its two loops, for a decoded event. -/
def batchOf (h : handler) (now : Nat → Time) (drive : GoString) (event : atrainEvent) :
    List Scan :=
  (scanLoop h now drive event.Deleted (scanLoop h now drive event.Created ([], 0))).1

/-- The method `handler.ServeHTTP`. `jsonDecode` is the decoder of `encoding/json`
applied to the body, `now` gives the clock's answer to its k-th call. -/
def handler.ServeHTTP (h : handler) (jsonDecode : GoString → Except GoError atrainEvent)
    (now : Nat → Time) (r : Request) : Outcome :=
  let drive := URLParam r
  match jsonDecode r.Body with
  | .error _ => { statuses := [400], callbacks := [] }
  | .ok event =>
    let st := scanLoop h now drive event.Created ([], 0)
    let st := scanLoop h now drive event.Deleted st
    let scans := st.1
    match h.callback scans with
    | some _ => { statuses := [500], callbacks := [scans] }
    | none => { statuses := [200], callbacks := [scans] }

end a_train

/-! ## The scenarios of the specification, as concrete data -/

namespace emby

open autoscan

/-- The configuration of the scan scenario: the rule `("/mnt/drive1", "/data")`. -/
def sampleConfig : Config :=
  { URL := str "http://emby:8096", Token := str "token",
    Rewrite := [⟨str "/mnt/drive1", str "/data"⟩], Verbosity := [] }

/-- A configuration whose only rule has a pattern that does not compile. -/
def brokenConfig : Config :=
  { URL := str "http://emby:8096", Token := str "token",
    Rewrite := [⟨str "(", str "/data"⟩], Verbosity := [] }

/-- The library `{Movies, /data/Movies}`. -/
def moviesLibrary : library := ⟨str "Movies", str "/data/Movies"⟩

/-- The library `{Everything, /data}`, whose root contains the one of `moviesLibrary`. -/
def dataLibrary : library := ⟨str "Everything", str "/data"⟩

/-- A server that lists the library `Movies` and accepts every scan request. -/
def sampleAPI : apiClient :=
  { Libraries := .ok [moviesLibrary], Scan := fun _ => none, Available := none }

/-- A server that cannot be reached. -/
def offlineAPI : apiClient :=
  { Libraries := .error ⟨str "connection refused"⟩,
    Scan := fun _ => some ⟨str "connection refused"⟩,
    Available := some ⟨str "connection refused"⟩ }

/-- The target built from `sampleConfig` against `sampleAPI`. -/
def sampleTarget : target :=
  { url := sampleConfig.URL, token := sampleConfig.Token, libraries := [moviesLibrary],
    rewrite := applyRules sampleConfig.Rewrite, api := sampleAPI }

/-- A target with two overlapping libraries, the wider one first. -/
def overlapTarget : target :=
  { url := sampleConfig.URL, token := sampleConfig.Token,
    libraries := [dataLibrary, moviesLibrary],
    rewrite := applyRules sampleConfig.Rewrite, api := sampleAPI }

/-- The scan of the scenario: folder `/mnt/drive1/Movies/Foo`. -/
def sampleScan : autoscan.Scan := ⟨str "/mnt/drive1/Movies/Foo", 0, 0⟩

/-- A scan of a folder no library of `sampleTarget` owns. -/
def foreignScan : autoscan.Scan := ⟨str "/mnt/drive2/Music", 0, 0⟩

end emby

namespace a_train

open autoscan

/-- The memory of the webhook scenario: one array holding the rule `("/a", "/x")`. -/
def sampleMemory : Memory := [[⟨str "/a", str "/x"⟩]]

/-- The configuration of the webhook scenario: drive `d1` with the rule `("/a", "/x")`,
no global rule. -/
def sampleConfig : Config :=
  { Drives := [⟨str "d1", ⟨0, 0, 1, 1⟩⟩], Priority := 5, Rewrite := Slice.nil,
    Verbosity := [] }

/-- The trigger `New` builds from `sampleConfig`. -/
def sampleTrigger : HTTPTrigger :=
  New.trigger sampleConfig
    (New.rewriter (mapSet emptyMap (str "d1") (applyRules [⟨str "/a", str "/x"⟩]))
      (applyRules []))

/-- A configuration whose only drive has the empty string as its ID, over `sampleMemory`. -/
def unnamedDriveConfig : Config :=
  { Drives := [⟨[], ⟨0, 0, 1, 1⟩⟩], Priority := 5, Rewrite := Slice.nil,
    Verbosity := [] }

/-- The trigger `New` builds from `unnamedDriveConfig`. -/
def unnamedDriveTrigger : HTTPTrigger :=
  New.trigger unnamedDriveConfig
    (New.rewriter (mapSet emptyMap [] (applyRules [⟨str "/a", str "/x"⟩])) (applyRules []))

/-- One array `base` of four cells: the rules `("/r0", "/R0")`, `("/g1", "/G1")`,
`("/g2", "/G2")`, and a zero value. -/
def overlapMemory : Memory :=
  [[⟨str "/r0", str "/R0"⟩, ⟨str "/g1", str "/G1"⟩, ⟨str "/g2", str "/G2"⟩, ⟨[], []⟩]]

/-- A configuration over `overlapMemory` whose drive `d1` has the rules `base[0:2]` and
whose global rules are `base[1:3]`. -/
def overlapConfig : Config :=
  { Drives := [⟨str "d1", ⟨0, 0, 2, 4⟩⟩], Priority := 5, Rewrite := ⟨0, 1, 2, 3⟩,
    Verbosity := [] }

/-- The trigger `New` builds from `overlapConfig`. -/
def overlapTrigger : HTTPTrigger :=
  New.trigger overlapConfig
    (New.rewriter
      (mapSet emptyMap (str "d1")
        (applyRules [⟨str "/r0", str "/R0"⟩, ⟨str "/g1", str "/G1"⟩,
          ⟨str "/g1", str "/G1"⟩, ⟨str "/g2", str "/G2"⟩]))
      (applyRules [⟨str "/g1", str "/G1"⟩, ⟨str "/g1", str "/G1"⟩]))

/-- An array `base` of four cells, holding the rules `("/r0", "/x")` and `("/r1", "/z")`
and two zero values, and an array holding the rule `("/g", "/G")`. -/
def nestedMemory : Memory :=
  [[⟨str "/r0", str "/x"⟩, ⟨str "/r1", str "/z"⟩, ⟨[], []⟩, ⟨[], []⟩],
   [⟨str "/g", str "/G"⟩]]

/-- A configuration over `nestedMemory` whose drive `d1` has the rules `base[:1]`, whose
drive `d2` has the rules `base[:2]`, and whose global rule is `("/g", "/G")`. -/
def nestedConfig : Config :=
  { Drives := [⟨str "d1", ⟨0, 0, 1, 4⟩⟩, ⟨str "d2", ⟨0, 0, 2, 4⟩⟩], Priority := 5,
    Rewrite := ⟨1, 0, 1, 1⟩, Verbosity := [] }

/-- The trigger `New` builds from `nestedConfig`. -/
def nestedTrigger : HTTPTrigger :=
  New.trigger nestedConfig
    (New.rewriter
      (mapSet
        (mapSet emptyMap (str "d1")
          (applyRules [⟨str "/r0", str "/x"⟩, ⟨str "/g", str "/G"⟩]))
        (str "d2")
        (applyRules [⟨str "/r0", str "/x"⟩, ⟨str "/g", str "/G"⟩, ⟨str "/g", str "/G"⟩]))
      (applyRules [⟨str "/g", str "/G"⟩]))

/-- The body of the webhook scenario. -/
def sampleBody : GoString := str "\x7b\"Created\":[\"/a\"],\"Deleted\":[\"/b\"]\x7d"

/-- A body cut off in the middle. -/
def truncatedBody : GoString := str "\x7b\"Created\":[\"/a\""

/-- A decoder that knows the body of the scenario and reports every other body as
undecodable. -/
def sampleDecode : GoString → Except GoError atrainEvent := fun body =>
  if body = sampleBody then .ok ⟨[str "/a"], [str "/b"]⟩
  else .error ⟨str "unexpected EOF"⟩

/-- A clock that advances by one unit per call. -/
def sampleClock : Nat → Time := fun k => 1000 + k

/-- A processor that accepts every batch. -/
def acceptAll : ProcessorFunc := fun _ => none

/-- A processor that rejects every batch. -/
def rejectAll : ProcessorFunc := fun _ => some ⟨str "processor failed"⟩

end a_train

/-! ## Shared lemmas -/

namespace autoscan

/-- The source's byte comparison decides the prefix relation on byte sequences. -/
theorem hasPrefix_iff (s pre : GoString) : HasPrefix s pre = true ↔ pre <+: s := by
  unfold HasPrefix
  rw [Bool.and_eq_true, decide_eq_true_eq, beq_iff_eq]
  constructor
  · rintro ⟨_, h⟩
    exact List.prefix_iff_eq_take.mpr h.symm
  · intro h
    exact ⟨h.length_le, (List.prefix_iff_eq_take.mp h).symm⟩

end autoscan

namespace emby

open autoscan

/-- The loop answers with an error only when no library still to visit matches. -/
theorem getScanLibraryLoop_error_iff (folder : GoString) (libs : List library) :
    (∃ e, getScanLibraryLoop folder libs = .error e) ↔ ∀ l ∈ libs, ¬ l.Path <+: folder := by
  induction libs with
  | nil => simp [getScanLibraryLoop]
  | cons l rest ih =>
    unfold getScanLibraryLoop
    by_cases h : HasPrefix folder l.Path = true
    · have hp := (hasPrefix_iff folder l.Path).mp h
      simp [h, hp]
    · have hp : ¬ l.Path <+: folder := fun hp => h ((hasPrefix_iff folder l.Path).mpr hp)
      simp [h, hp, ih]

/-- The loop answers with the first library whose path is a prefix of the folder. -/
theorem getScanLibraryLoop_first (folder : GoString) (libs : List library) (i : Nat)
    (hi : i < libs.length) (hmatch : (libs.get ⟨i, hi⟩).Path <+: folder)
    (hfirst : ∀ j (hj : j < i), ¬ (libs.get ⟨j, Nat.lt_trans hj hi⟩).Path <+: folder) :
    getScanLibraryLoop folder libs = .ok (libs.get ⟨i, hi⟩) := by
  induction libs generalizing i with
  | nil => simp at hi
  | cons l rest ih =>
    unfold getScanLibraryLoop
    cases i with
    | zero =>
      have h : HasPrefix folder l.Path = true := (hasPrefix_iff folder l.Path).mpr hmatch
      simp [h]
    | succ k =>
      have h0 : ¬ l.Path <+: folder := hfirst 0 (Nat.succ_pos k)
      have h : ¬ HasPrefix folder l.Path = true := fun h => h0 ((hasPrefix_iff folder l.Path).mp h)
      have hk : k < rest.length := Nat.lt_of_succ_lt_succ hi
      have := ih k hk hmatch (fun j hj => hfirst (j + 1) (Nat.succ_lt_succ hj))
      simpa [h] using this

end emby

namespace emby

open autoscan

/-- Claim C1: `getScanLibrary` returns the library at the smallest index whose `Path` is a
prefix of the folder, and it returns an error exactly when no library's `Path` is a prefix
of the folder. -/
theorem getScanLibrary_first_match (t : target) (folder : GoString) :
    (∀ (i : Nat) (hi : i < t.libraries.length),
        (t.libraries.get ⟨i, hi⟩).Path <+: folder →
        (∀ (j : Nat) (hj : j < i),
          ¬ (t.libraries.get ⟨j, Nat.lt_trans hj hi⟩).Path <+: folder) →
        t.getScanLibrary folder = .ok (t.libraries.get ⟨i, hi⟩)) ∧
    ((∃ e, t.getScanLibrary folder = .error e) ↔ ∀ l ∈ t.libraries, ¬ l.Path <+: folder) :=
  ⟨fun i hi hmatch hfirst => getScanLibraryLoop_first folder t.libraries i hi hmatch hfirst,
   getScanLibraryLoop_error_iff folder t.libraries⟩

/-- Two libraries both own `/data/Movies/Foo`; the one registered first is returned. -/
theorem getScanLibrary_first_match_witness :
    dataLibrary.Path <+: str "/data/Movies/Foo" ∧
    moviesLibrary.Path <+: str "/data/Movies/Foo" ∧
    overlapTarget.getScanLibrary (str "/data/Movies/Foo") = .ok dataLibrary :=
  ⟨(hasPrefix_iff _ _).mp (by decide), (hasPrefix_iff _ _).mp (by decide),
   (getScanLibrary_first_match overlapTarget (str "/data/Movies/Foo")).1 0 (by decide)
     ((hasPrefix_iff _ _).mp (by decide)) (fun j hj => absurd hj (Nat.not_lt_zero j))⟩

/-- Claim C2: when no library of the target has a `Path` that is a prefix of the rewritten
folder, `Scan` returns no error and makes no remote call. -/
theorem scan_without_library (t : target) (scan : autoscan.Scan)
    (hnone : ∀ l ∈ t.libraries, ¬ l.Path <+: t.rewrite scan.Folder) :
    (t.Scan scan).1 = none ∧ (t.Scan scan).2 = [] := by
  obtain ⟨e, he⟩ := (getScanLibraryLoop_error_iff (t.rewrite scan.Folder) t.libraries).mpr hnone
  simp [target.Scan, target.getScanLibrary, he]

/-- The folder `/mnt/drive2/Music` is owned by no library: nothing is sent. -/
theorem scan_without_library_witness :
    (∀ l ∈ sampleTarget.libraries, ¬ l.Path <+: sampleTarget.rewrite foreignScan.Folder) ∧
    (sampleTarget.Scan foreignScan).1 = none ∧ (sampleTarget.Scan foreignScan).2 = [] :=
  have hnone : ∀ l ∈ sampleTarget.libraries,
      ¬ l.Path <+: sampleTarget.rewrite foreignScan.Folder := by
    intro l hl hp
    have hl : l = moviesLibrary := by simpa [sampleTarget] using hl
    subst hl
    exact absurd ((hasPrefix_iff _ _).mpr hp) (by decide)
  ⟨hnone, scan_without_library sampleTarget foreignScan hnone⟩

/-- Claim C3: when some library `Path` is a prefix of the rewritten folder, `Scan` makes
exactly one remote call, the scan-folder call with the rewritten folder as its argument,
and returns that call's result. -/
theorem scan_forwards_rewritten_folder (t : target) (scan : autoscan.Scan)
    (hlib : ∃ l ∈ t.libraries, l.Path <+: t.rewrite scan.Folder) :
    (t.Scan scan).2 = [RemoteCall.Scan (t.rewrite scan.Folder)] ∧
    (t.Scan scan).1 = t.api.Scan (t.rewrite scan.Folder) := by
  have hne : ¬ ∃ e, getScanLibraryLoop (t.rewrite scan.Folder) t.libraries = .error e := by
    rw [getScanLibraryLoop_error_iff]
    obtain ⟨l, hl, hp⟩ := hlib
    exact fun h => h l hl hp
  cases hres : getScanLibraryLoop (t.rewrite scan.Folder) t.libraries with
  | error e => exact absurd ⟨e, hres⟩ hne
  | ok l =>
    cases hcall : t.api.Scan (t.rewrite scan.Folder) <;>
      simp [target.Scan, target.getScanLibrary, hres, hcall]

/-- The scenario: rule `("/mnt/drive1", "/data")`, folder `/mnt/drive1/Movies/Foo`, library
`{Movies, /data/Movies}`: one remote call, with `/data/Movies/Foo`. -/
theorem scan_forwards_rewritten_folder_witness :
    (∃ l ∈ sampleTarget.libraries, l.Path <+: sampleTarget.rewrite sampleScan.Folder) ∧
    sampleTarget.rewrite sampleScan.Folder = str "/data/Movies/Foo" ∧
    str "/data/Movies/Foo" ≠ sampleScan.Folder ∧
    str "/data/Movies/Foo" ≠ moviesLibrary.Path ∧
    (sampleTarget.Scan sampleScan).2 = [RemoteCall.Scan (str "/data/Movies/Foo")] ∧
    (sampleTarget.Scan sampleScan).1 = none :=
  have hlib : ∃ l ∈ sampleTarget.libraries,
      l.Path <+: sampleTarget.rewrite sampleScan.Folder :=
    ⟨moviesLibrary, by simp [sampleTarget], (hasPrefix_iff _ _).mp (by decide)⟩
  have hrw : sampleTarget.rewrite sampleScan.Folder = str "/data/Movies/Foo" := by decide
  ⟨hlib, hrw, by decide, by decide, hrw ▸ (scan_forwards_rewritten_folder sampleTarget sampleScan hlib).1,
   (scan_forwards_rewritten_folder sampleTarget sampleScan hlib).2⟩

/-- Claim C9: `New` fails with the compile error when the rules do not compile, and then
no remote call is made; when the rules compile and the library fetch fails it fails with
the fetch's error; when both succeed it returns, with no error, a target holding the
compiled rewriter and exactly the fetched library list. -/
theorem new_target_result (NewRewriter : RewriterCompiler)
    (newAPIClient : GoString → GoString → apiClient) (c : Config) :
    (∀ err, NewRewriter c.Rewrite = .error err →
      (New NewRewriter newAPIClient c).1 = .error err ∧
      (New NewRewriter newAPIClient c).2 = []) ∧
    (∀ rewriter err, NewRewriter c.Rewrite = .ok rewriter →
      (newAPIClient c.URL c.Token).Libraries = .error err →
      (New NewRewriter newAPIClient c).1 = .error err) ∧
    (∀ rewriter libraries, NewRewriter c.Rewrite = .ok rewriter →
      (newAPIClient c.URL c.Token).Libraries = .ok libraries →
      ∃ t, (New NewRewriter newAPIClient c).1 = .ok t ∧
        t.rewrite = rewriter ∧ t.libraries = libraries) := by
  refine ⟨?_, ?_, ?_⟩
  · intro err h
    simp [New, h]
  · intro rewriter err h hfetch
    simp [New, h, hfetch]
  · intro rewriter libraries h hfetch
    simp [New, h, hfetch]

/-- The three outcomes of construction: a pattern that does not compile, a server that
cannot be reached, and the scenario's configuration against a server listing `Movies`. -/
theorem new_target_result_witness :
    ((New autoscan.NewRewriter (fun _ _ => sampleAPI) brokenConfig).1 =
        .error ⟨str "error parsing regexp: ("⟩ ∧
      (New autoscan.NewRewriter (fun _ _ => sampleAPI) brokenConfig).2 = []) ∧
    (New autoscan.NewRewriter (fun _ _ => offlineAPI) sampleConfig).1 =
        .error ⟨str "connection refused"⟩ ∧
    (∃ t, (New autoscan.NewRewriter (fun _ _ => sampleAPI) sampleConfig).1 = .ok t ∧
        t.rewrite = applyRules sampleConfig.Rewrite ∧ t.libraries = [moviesLibrary]) :=
  ⟨(new_target_result autoscan.NewRewriter (fun _ _ => sampleAPI) brokenConfig).1 _ rfl,
   (new_target_result autoscan.NewRewriter (fun _ _ => offlineAPI) sampleConfig).2.1 _ _
     rfl rfl,
   (new_target_result autoscan.NewRewriter (fun _ _ => sampleAPI) sampleConfig).2.2 _ _
     rfl rfl⟩

end emby

namespace autoscan

/-- Cells outside the written range keep their value. -/
theorem writeAt_getElem? (a : List Rewrite) (pos : Nat) (vals : List Rewrite) (i : Nat)
    (hi : i < pos ∨ pos + vals.length ≤ i) : (writeAt a pos vals)[i]? = a[i]? := by
  induction vals generalizing a pos with
  | nil => rfl
  | cons v vs ih =>
    unfold writeAt
    have hlen : (v :: vs).length = vs.length + 1 := rfl
    have hne : pos ≠ i := by omega
    rw [ih (a.set pos v) (pos + 1) (by omega)]
    exact List.getElem?_set_ne hne

/-- A slice holds at most `len` elements. -/
theorem read_length_le (s : Slice) (mem : Memory) : (s.read mem).length ≤ s.len := by
  simp [Slice.read, List.length_take]

/-- Two arrays that agree on a window of cells give the same elements there. -/
theorem window_congr (a b : List Rewrite) (off len : Nat)
    (h : ∀ i, off ≤ i → i < off + len → a[i]? = b[i]?) :
    (a.drop off).take len = (b.drop off).take len := by
  apply List.ext_getElem?
  intro i
  by_cases hi : i < len
  · rw [List.getElem?_take_of_lt hi, List.getElem?_take_of_lt hi, List.getElem?_drop,
      List.getElem?_drop]
    exact h (off + i) (by omega) (by omega)
  · rw [List.getElem?_take_eq_none (Nat.le_of_not_lt hi),
      List.getElem?_take_eq_none (Nat.le_of_not_lt hi)]

/-- A valid slice is empty or points at an array that exists. -/
theorem valid_len_or_arr (t : Slice) (mem : Memory) (hvalid : t.valid mem) :
    t.len = 0 ∨ t.arr < mem.length := by
  by_cases hlt : t.arr < mem.length
  · exact Or.inr hlt
  · left
    obtain ⟨hlen, hcap⟩ := hvalid
    have hnone : mem[t.arr]? = none := List.getElem?_eq_none (Nat.le_of_not_lt hlt)
    simp [hnone] at hcap
    omega

/-- An `append` that does not write over the slice `t` leaves the elements of `t` as they
were, and `t` still points at an array that exists. -/
theorem appendRules_read (mem : Memory) (s elems t : Slice)
    (ht : t.len = 0 ∨ t.arr < mem.length) (hno : ¬ overwrites s elems t) :
    t.read (appendRules mem s elems).1 = t.read mem ∧
      (t.len = 0 ∨ t.arr < (appendRules mem s elems).1.length) := by
  unfold appendRules
  have hlen := read_length_le elems mem
  generalize elems.read mem = vals at hlen
  by_cases hcap : s.len + elems.len ≤ s.cap
  · simp only [hcap, if_true, List.length_set]
    refine ⟨?_, ht⟩
    unfold Slice.read
    apply window_congr
    intro i hlo hhi
    by_cases harr : s.arr = t.arr
    · by_cases hlt : s.arr < mem.length
      · have hget : (mem.set s.arr (writeAt (mem.getD s.arr []) (s.off + s.len)
            vals)).getD t.arr [] = writeAt (mem.getD s.arr []) (s.off + s.len) vals := by
          rw [← harr]
          simp [List.getElem?_set, hlt]
        rw [hget, ← harr]
        apply writeAt_getElem?
        have : ¬ (s.off + s.len < t.off + t.len ∧ t.off < s.off + s.len + elems.len) :=
          fun h => hno ⟨hcap, harr, h.1, h.2⟩
        omega
      · rw [List.set_eq_of_length_le (Nat.le_of_not_lt hlt)]
    · have hget : (mem.set s.arr (writeAt (mem.getD s.arr []) (s.off + s.len)
          vals)).getD t.arr [] = mem.getD t.arr [] := by
        simp [List.getElem?_set_ne harr]
      rw [hget]
  · simp only [hcap, if_false]
    rcases ht with h0 | hlt
    · exact ⟨by simp [Slice.read, h0], Or.inl h0⟩
    · refine ⟨?_, Or.inr (by simp; omega)⟩
      unfold Slice.read
      rw [List.getD_append _ _ _ _ hlt]

/-- Writing into an array keeps its length. -/
theorem writeAt_length (a : List Rewrite) (pos : Nat) (vals : List Rewrite) :
    (writeAt a pos vals).length = a.length := by
  induction vals generalizing a pos with
  | nil => rfl
  | cons v vs ih =>
    unfold writeAt
    rw [ih, List.length_set]

/-- A written cell holds the value copied into it. -/
theorem writeAt_getElem?_written (a : List Rewrite) (pos : Nat) (vals : List Rewrite) (i : Nat)
    (hfit : pos + vals.length ≤ a.length) (hlo : pos ≤ i) (hhi : i < pos + vals.length) :
    (writeAt a pos vals)[i]? = vals[i - pos]? := by
  induction vals generalizing a pos with
  | nil => simp at hhi; omega
  | cons v vs ih =>
    unfold writeAt
    have hlen : (v :: vs).length = vs.length + 1 := rfl
    by_cases heq : i = pos
    · subst heq
      rw [writeAt_getElem? _ _ _ _ (Or.inl (Nat.lt_succ_self i))]
      have hi : i < a.length := by omega
      simp [List.getElem?_set, hi]
    · rw [ih (a.set pos v) (pos + 1) (by rw [List.length_set]; omega) (by omega) (by omega)]
      have : i - pos = (i - (pos + 1)) + 1 := by omega
      rw [this, List.getElem?_cons_succ]

/-- A slice that lies within its backing array still does after an `append`. -/
theorem appendRules_valid (mem : Memory) (s elems t : Slice) (ht : t.valid mem) :
    t.valid (appendRules mem s elems).1 := by
  obtain ⟨hlen, hcap⟩ := ht
  refine ⟨hlen, ?_⟩
  unfold appendRules
  by_cases hfit : s.len + elems.len ≤ s.cap
  · simp only [hfit, if_true]
    by_cases harr : s.arr = t.arr
    · by_cases hlt : s.arr < mem.length
      · have hget : (mem.set s.arr (writeAt (mem.getD s.arr []) (s.off + s.len)
            (elems.read mem))).getD t.arr [] =
            writeAt (mem.getD s.arr []) (s.off + s.len) (elems.read mem) := by
          rw [← harr]
          simp [List.getElem?_set, hlt]
        rw [hget, writeAt_length, harr]
        exact hcap
      · rw [List.set_eq_of_length_le (Nat.le_of_not_lt hlt)]
        exact hcap
    · have hget : (mem.set s.arr (writeAt (mem.getD s.arr []) (s.off + s.len)
          (elems.read mem))).getD t.arr [] = mem.getD t.arr [] := by
        simp [List.getElem?_set_ne harr]
      rw [hget]
      exact hcap
  · simp only [hfit, if_false]
    by_cases hlt : t.arr < mem.length
    · rw [List.getD_append _ _ _ _ hlt]
      exact hcap
    · have hnone : mem[t.arr]? = none := List.getElem?_eq_none (Nat.le_of_not_lt hlt)
      simp [hnone] at hcap
      omega

/-- A slice that lies within its backing array holds exactly `len` elements. -/
theorem read_length (s : Slice) (mem : Memory) (hs : s.valid mem) :
    (s.read mem).length = s.len := by
  obtain ⟨hlen, hcap⟩ := hs
  simp [Slice.read, List.length_take, List.length_drop] at hcap ⊢
  omega

/-- The slice `append` returns holds the elements of `s` followed by those of `elems`. -/
theorem appendRules_result (mem : Memory) (s elems : Slice) (hs : s.valid mem)
    (he : elems.valid mem) :
    (appendRules mem s elems).2.read (appendRules mem s elems).1 =
      s.read mem ++ elems.read mem := by
  have hsl := read_length s mem hs
  have hel := read_length elems mem he
  unfold appendRules
  generalize hv : elems.read mem = vals at hel
  by_cases hfit : s.len + elems.len ≤ s.cap
  · simp only [hfit, if_true]
    obtain ⟨_, hcap⟩ := hs
    by_cases hlt : s.arr < mem.length
    · have hget : (mem.set s.arr (writeAt (mem.getD s.arr []) (s.off + s.len)
          vals)).getD s.arr [] = writeAt (mem.getD s.arr []) (s.off + s.len) vals := by
        simp [List.getElem?_set, hlt]
      show (((mem.set s.arr (writeAt (mem.getD s.arr []) (s.off + s.len) vals)).getD s.arr
        []).drop s.off).take (s.len + elems.len) = s.read mem ++ vals
      rw [hget]
      apply List.ext_getElem?
      intro i
      by_cases hi : i < s.len
      · rw [List.getElem?_take_of_lt (by omega), List.getElem?_drop,
          writeAt_getElem? _ _ _ _ (Or.inl (by omega)),
          List.getElem?_append_left (by omega)]
        unfold Slice.read
        rw [List.getElem?_take_of_lt hi, List.getElem?_drop]
      · rw [List.getElem?_append_right (by omega), hsl]
        by_cases hi2 : i < s.len + elems.len
        · rw [List.getElem?_take_of_lt hi2, List.getElem?_drop,
            writeAt_getElem?_written _ _ _ _ (by omega) (by omega) (by omega)]
          congr 1
          omega
        · rw [List.getElem?_take_eq_none (by omega), List.getElem?_eq_none (by omega)]
    · have hnone : mem[s.arr]? = none := List.getElem?_eq_none (Nat.le_of_not_lt hlt)
      simp [hnone] at hcap
      have h1 : s.len = 0 := by omega
      have h2 : elems.len = 0 := by omega
      have h3 : vals = [] := List.length_eq_zero.mp (by omega)
      have h4 : s.read mem = [] := List.length_eq_zero.mp (by omega)
      simp [Slice.read, h1, h2, h3, h4]
  · simp only [hfit, if_false]
    show (((mem ++ [s.read mem ++ vals]).getD mem.length []).drop 0).take
      (s.len + elems.len) = s.read mem ++ vals
    rw [List.getD_append_right _ _ _ _ (Nat.le_refl _)]
    simp only [Nat.sub_self, List.getD_cons_zero, List.drop_zero]
    apply List.take_of_length_le
    simp [hsl, hel]

end autoscan

namespace a_train

open autoscan

/-- Compiling drives leaves the entry of a key alone when no drive has that ID. -/
theorem compileDrives_other_key (NewRewriter : RewriterCompiler) (global : Slice)
    (key : GoString) (drives : List Drive) (mem mem' : Memory) (m m' : RewriterMap)
    (hkey : ∀ d ∈ drives, d.ID ≠ key)
    (hok : compileDrives NewRewriter global drives mem m = .ok (mem', m')) :
    m' key = m key := by
  induction drives generalizing mem m with
  | nil =>
    simp only [compileDrives, Except.ok.injEq, Prod.mk.injEq] at hok
    rw [hok.2]
  | cons d rest ih =>
    unfold compileDrives at hok
    simp only at hok
    cases hc : NewRewriter ((appendRules mem d.Rewrite global).2.read
        (appendRules mem d.Rewrite global).1) with
    | error e => simp [hc] at hok
    | ok rw =>
      simp only [hc] at hok
      have hrest : ∀ d' ∈ rest, d'.ID ≠ key := fun d' hd' => hkey d' (List.mem_cons_of_mem d hd')
      have hd : key ≠ d.ID := fun h => hkey d (List.mem_cons_self d rest) h.symm
      rw [ih _ _ hrest hok]
      simp [mapSet, hd]

/-- Compiling drives leaves the elements of a slice as they were when no drive's append
writes over it. -/
theorem compileDrives_read (NewRewriter : RewriterCompiler) (global t : Slice)
    (drives : List Drive) (mem mem' : Memory) (m m' : RewriterMap)
    (ht : t.len = 0 ∨ t.arr < mem.length)
    (hkept : ∀ d ∈ drives, ¬ overwrites d.Rewrite global t)
    (hok : compileDrives NewRewriter global drives mem m = .ok (mem', m')) :
    t.read mem' = t.read mem := by
  induction drives generalizing mem m with
  | nil =>
    simp only [compileDrives, Except.ok.injEq, Prod.mk.injEq] at hok
    rw [hok.1]
  | cons d rest ih =>
    unfold compileDrives at hok
    simp only at hok
    cases hc : NewRewriter ((appendRules mem d.Rewrite global).2.read
        (appendRules mem d.Rewrite global).1) with
    | error e => simp [hc] at hok
    | ok rw =>
      simp only [hc] at hok
      obtain ⟨hread, ht'⟩ := appendRules_read mem d.Rewrite global t ht
        (hkept d (List.mem_cons_self d rest))
      rw [ih _ _ ht' (fun d' hd' => hkept d' (List.mem_cons_of_mem d hd')) hok, hread]

/-- What a successful `New` returned: the trigger over the compiled map and the global
rules compiled as they stand in memory after the loop. -/
theorem new_ok_inv (NewRewriter : RewriterCompiler) (mem : Memory) (c : Config)
    (trigger : HTTPTrigger) (hnew : New NewRewriter mem c = .ok trigger) :
    ∃ mem' rewrites g,
      compileDrives NewRewriter c.Rewrite c.Drives mem emptyMap = .ok (mem', rewrites) ∧
      NewRewriter (c.Rewrite.read mem') = .ok g ∧
      trigger = New.trigger c (New.rewriter rewrites g) := by
  unfold New at hnew
  cases hm : compileDrives NewRewriter c.Rewrite c.Drives mem emptyMap with
  | error e => simp [hm] at hnew
  | ok res =>
    obtain ⟨mem', rewrites⟩ := res
    cases hg : NewRewriter (c.Rewrite.read mem') with
    | error e => simp [hm, hg] at hnew
    | ok g =>
      simp only [hm, hg, Except.ok.injEq] at hnew
      exact ⟨mem', rewrites, g, rfl, hg, hnew.symm⟩

/-- For a key that is the ID of no drive, and a configuration in which no append writes
over the global rules, the trigger's rewriter is the one compiled from the global rules. -/
theorem new_unknown_key (NewRewriter : RewriterCompiler) (mem : Memory) (c : Config)
    (trigger : HTTPTrigger) (key : GoString)
    (hnew : New NewRewriter mem c = .ok trigger)
    (hkey : ∀ d ∈ c.Drives, d.ID ≠ key)
    (hvalid : c.Rewrite.valid mem)
    (hkept : ∀ d ∈ c.Drives, ¬ overwrites d.Rewrite c.Rewrite c.Rewrite) :
    ∃ g, NewRewriter (c.Rewrite.read mem) = .ok g ∧
      ∀ callback, (trigger callback).rewrite key = g := by
  obtain ⟨mem', rewrites, g, hmap, hg, htrig⟩ := new_ok_inv NewRewriter mem c trigger hnew
  have hread := compileDrives_read NewRewriter c.Rewrite c.Rewrite c.Drives mem mem' emptyMap
    rewrites (valid_len_or_arr c.Rewrite mem hvalid) hkept hmap
  have hk := compileDrives_other_key NewRewriter c.Rewrite key c.Drives mem mem' emptyMap
    rewrites hkey hmap
  rw [hread] at hg
  refine ⟨g, hg, ?_⟩
  intro callback
  funext input
  rw [htrig]
  simp [New.trigger, New.rewriter, hk, emptyMap]

/-- After compiling, a drive's ID maps to the rewriter compiled from the rules of the last
drive carrying that ID followed by the global rules, when no earlier append has written
over either of them. -/
theorem compileDrives_last (NewRewriter : RewriterCompiler) (global : Slice)
    (pre post : List Drive) (d : Drive) (mem mem' : Memory) (m m' : RewriterMap)
    (hlast : ∀ d' ∈ post, d'.ID ≠ d.ID)
    (hvalidg : global.valid mem) (hvalidd : d.Rewrite.valid mem)
    (hkeptg : ∀ e ∈ pre, ¬ overwrites e.Rewrite global global)
    (hkeptd : ∀ e ∈ pre, ¬ overwrites e.Rewrite global d.Rewrite)
    (hok : compileDrives NewRewriter global (pre ++ d :: post) mem m = .ok (mem', m')) :
    ∃ r, NewRewriter (d.Rewrite.read mem ++ global.read mem) = .ok r ∧ m' d.ID = some r := by
  induction pre generalizing mem m with
  | nil =>
    simp only [List.nil_append] at hok
    unfold compileDrives at hok
    simp only at hok
    rw [appendRules_result mem d.Rewrite global hvalidd hvalidg] at hok
    cases hc : NewRewriter (d.Rewrite.read mem ++ global.read mem) with
    | error e => simp [hc] at hok
    | ok rw =>
      simp only [hc] at hok
      refine ⟨rw, rfl, ?_⟩
      rw [compileDrives_other_key NewRewriter global d.ID post _ mem' _ m' hlast hok]
      simp [mapSet]
  | cons x rest ih =>
    simp only [List.cons_append] at hok
    unfold compileDrives at hok
    simp only at hok
    cases hc : NewRewriter ((appendRules mem x.Rewrite global).2.read
        (appendRules mem x.Rewrite global).1) with
    | error e => simp [hc] at hok
    | ok rw =>
      simp only [hc] at hok
      have hx : x ∈ x :: rest := List.mem_cons_self x rest
      have hrg := (appendRules_read mem x.Rewrite global global
        (valid_len_or_arr global mem hvalidg) (hkeptg x hx)).1
      have hrd := (appendRules_read mem x.Rewrite global d.Rewrite
        (valid_len_or_arr d.Rewrite mem hvalidd) (hkeptd x hx)).1
      have := ih (appendRules mem x.Rewrite global).1 _
        (appendRules_valid mem x.Rewrite global global hvalidg)
        (appendRules_valid mem x.Rewrite global d.Rewrite hvalidd)
        (fun e he => hkeptg e (List.mem_cons_of_mem x he))
        (fun e he => hkeptd e (List.mem_cons_of_mem x he)) hok
      rw [hrg, hrd] at this
      exact this

/-- For a drive that is the last one carrying its ID, and a configuration in which no
earlier append writes over that drive's rules or over the global rules, the trigger's
rewriter for the drive's ID is the one compiled from the drive's rules followed by the
global rules. -/
theorem new_configured_key (NewRewriter : RewriterCompiler) (mem : Memory) (c : Config)
    (trigger : HTTPTrigger) (pre post : List Drive) (d : Drive)
    (hnew : New NewRewriter mem c = .ok trigger)
    (hsplit : c.Drives = pre ++ d :: post)
    (hlast : ∀ d' ∈ post, d'.ID ≠ d.ID)
    (hvalidg : c.Rewrite.valid mem) (hvalidd : d.Rewrite.valid mem)
    (hkeptg : ∀ e ∈ pre, ¬ overwrites e.Rewrite c.Rewrite c.Rewrite)
    (hkeptd : ∀ e ∈ pre, ¬ overwrites e.Rewrite c.Rewrite d.Rewrite) :
    ∃ r, NewRewriter (d.Rewrite.read mem ++ c.Rewrite.read mem) = .ok r ∧
      ∀ callback, (trigger callback).rewrite d.ID = r := by
  obtain ⟨mem', rewrites, g, hmap, _, htrig⟩ := new_ok_inv NewRewriter mem c trigger hnew
  rw [hsplit] at hmap
  obtain ⟨r, hr, hget⟩ := compileDrives_last NewRewriter c.Rewrite pre post d mem mem'
    emptyMap rewrites hlast hvalidg hvalidd hkeptg hkeptd hmap
  refine ⟨r, hr, ?_⟩
  intro callback
  funext input
  rw [htrig]
  simp [New.trigger, New.rewriter, hget]

/-- The folders a loop of `ServeHTTP` appends: the rewritten paths, in order. -/
theorem scanLoop_folders (h : handler) (now : Nat → Time) (drive : GoString)
    (paths : List GoString) (st : List Scan × Nat) :
    (scanLoop h now drive paths st).1.map Scan.Folder =
      st.1.map Scan.Folder ++ paths.map (h.rewrite drive) := by
  induction paths generalizing st with
  | nil => simp [scanLoop]
  | cons path rest ih =>
    obtain ⟨scans, tick⟩ := st
    simp [scanLoop, ih]

/-- The priorities a loop of `ServeHTTP` appends: the handler's priority each time. -/
theorem scanLoop_priorities (h : handler) (now : Nat → Time) (drive : GoString)
    (paths : List GoString) (st : List Scan × Nat)
    (hst : ∀ s ∈ st.1, s.Priority = h.priority) :
    ∀ s ∈ (scanLoop h now drive paths st).1, s.Priority = h.priority := by
  induction paths generalizing st with
  | nil => simpa [scanLoop] using hst
  | cons path rest ih =>
    obtain ⟨scans, tick⟩ := st
    unfold scanLoop
    apply ih
    intro s hs
    rcases List.mem_append.mp hs with hs | hs
    · exact hst s hs
    · have : s = ⟨h.rewrite drive path, h.priority, now tick⟩ := by simpa using hs
      rw [this]

/-- The folders of the batch: created paths first, then deleted ones, each rewritten. -/
theorem batchOf_folders (h : handler) (now : Nat → Time) (drive : GoString)
    (event : atrainEvent) :
    (batchOf h now drive event).map Scan.Folder =
      (event.Created ++ event.Deleted).map (h.rewrite drive) := by
  simp [batchOf, scanLoop_folders]

/-- Every scan of the batch carries the handler's priority. -/
theorem batchOf_priorities (h : handler) (now : Nat → Time) (drive : GoString)
    (event : atrainEvent) : ∀ s ∈ batchOf h now drive event, s.Priority = h.priority := by
  unfold batchOf
  apply scanLoop_priorities
  apply scanLoop_priorities
  simp

/-- On a body that decodes, `ServeHTTP` hands the batch to the callback once and writes
the status the callback's answer selects. -/
theorem serveHTTP_decoded (h : handler) (jsonDecode : GoString → Except GoError atrainEvent)
    (now : Nat → Time) (r : Request) (event : atrainEvent)
    (hdec : jsonDecode r.Body = .ok event) :
    (h.ServeHTTP jsonDecode now r).callbacks = [batchOf h now (URLParam r) event] ∧
    (h.ServeHTTP jsonDecode now r).statuses =
      (match h.callback (batchOf h now (URLParam r) event) with
        | some _ => [500]
        | none => [200]) := by
  unfold handler.ServeHTTP batchOf
  simp only [hdec]
  cases h.callback (scanLoop h now (URLParam r) event.Deleted
      (scanLoop h now (URLParam r) event.Created ([], 0))).1 <;> simp

end a_train

namespace a_train

open autoscan

/-- Claim C4: for a body that decodes to the lists `created` and `deleted`, the handler of a
compiled trigger invokes the callback exactly once, with a batch of length
`len(created) + len(deleted)` whose folders are the rewritten paths of `created` followed
by the rewritten paths of `deleted`, each list in its own order, and every scan of the
batch carries the configured priority. -/
theorem serveHTTP_batch (NewRewriter : RewriterCompiler) (mem : Memory) (c : Config)
    (trigger : HTTPTrigger) (callback : ProcessorFunc)
    (jsonDecode : GoString → Except GoError atrainEvent)
    (now : Nat → Time) (r : Request) (created deleted : List GoString)
    (hnew : New NewRewriter mem c = .ok trigger)
    (hdec : jsonDecode r.Body = .ok ⟨created, deleted⟩) :
    ∃ batch, ((trigger callback).ServeHTTP jsonDecode now r).callbacks = [batch] ∧
      batch.length = created.length + deleted.length ∧
      batch.map Scan.Folder =
        created.map ((trigger callback).rewrite (URLParam r)) ++
          deleted.map ((trigger callback).rewrite (URLParam r)) ∧
      ∀ s ∈ batch, s.Priority = c.Priority := by
  obtain ⟨_, rewrites, g, _, _, htrig⟩ := new_ok_inv NewRewriter mem c trigger hnew
  have hfold := batchOf_folders (trigger callback) now (URLParam r) ⟨created, deleted⟩
  have hprio := batchOf_priorities (trigger callback) now (URLParam r) ⟨created, deleted⟩
  have hp : (trigger callback).priority = c.Priority := by rw [htrig]; rfl
  refine ⟨batchOf (trigger callback) now (URLParam r) ⟨created, deleted⟩,
    (serveHTTP_decoded _ jsonDecode now r _ hdec).1, ?_, ?_, ?_⟩
  · have := congrArg List.length hfold
    simpa using this
  · simpa using hfold
  · intro s hs
    rw [← hp]
    exact hprio s hs

/-- The scenario: body `{"Created":["/a"],"Deleted":["/b"]}` on drive `d1`, which has the
rule `("/a", "/x")`: one batch, folders `/x` then `/b`. -/
theorem serveHTTP_batch_witness :
    New autoscan.NewRewriter sampleMemory sampleConfig = .ok sampleTrigger ∧
    sampleDecode sampleBody = .ok ⟨[str "/a"], [str "/b"]⟩ ∧
    (sampleTrigger acceptAll).rewrite (str "d1") (str "/a") = str "/x" ∧
    (sampleTrigger acceptAll).rewrite (str "d1") (str "/b") = str "/b" ∧
    ∃ batch, ((sampleTrigger acceptAll).ServeHTTP sampleDecode sampleClock
        ⟨some (str "d1"), sampleBody⟩).callbacks = [batch] ∧
      batch.length = 2 ∧
      batch.map Scan.Folder = [str "/x", str "/b"] ∧
      ∀ s ∈ batch, s.Priority = 5 :=
  ⟨rfl, rfl, by decide, by decide,
   serveHTTP_batch autoscan.NewRewriter sampleMemory sampleConfig sampleTrigger acceptAll
     sampleDecode sampleClock ⟨some (str "d1"), sampleBody⟩ [str "/a"] [str "/b"] rfl rfl⟩

/-- Claim C5 fails on the code at `overlapConfig`: drive `d1` has the rules `base[0:2]` and
the global rules are `base[1:3]` of one array with four cells. The append of `New` for
`d1` writes in place and puts `("/g1", "/G1")` where the global rule `("/g2", "/G2")` was,
so for the key `unknown`, the ID of no drive, the trigger's rewriter leaves `/g2` as it
is, while the rewriter compiled from the global rules alone turns it into `/G2`. -/
theorem unknown_drive_global_overwritten :
    overlapConfig.Drives = [⟨str "d1", ⟨0, 0, 2, 4⟩⟩] ∧
    Slice.valid ⟨0, 0, 2, 4⟩ overlapMemory ∧
    overlapConfig.Rewrite.valid overlapMemory ∧
    str "unknown" ∉ overlapConfig.Drives.map Drive.ID ∧
    New autoscan.NewRewriter overlapMemory overlapConfig = .ok overlapTrigger ∧
    (overlapTrigger acceptAll).rewrite (str "unknown") (str "/g2") = str "/g2" ∧
    overlapConfig.Rewrite.read overlapMemory =
      [⟨str "/g1", str "/G1"⟩, ⟨str "/g2", str "/G2"⟩] ∧
    (autoscan.NewRewriter (overlapConfig.Rewrite.read overlapMemory)).map
      (fun g => g (str "/g2")) = .ok (str "/G2") := by
  refine ⟨rfl, ?_, ?_, by decide, rfl, by decide, by decide, rfl⟩
  · unfold Slice.valid
    decide
  · unfold Slice.valid
    decide

/-- Claim C6: when the body fails to decode, the handler writes status 400 and the callback
is never invoked. -/
theorem serveHTTP_malformed (h : handler)
    (jsonDecode : GoString → Except GoError atrainEvent) (now : Nat → Time) (r : Request)
    (err : GoError) (hdec : jsonDecode r.Body = .error err) :
    (h.ServeHTTP jsonDecode now r).statuses = [400] ∧
    (h.ServeHTTP jsonDecode now r).callbacks = [] := by
  simp [handler.ServeHTTP, hdec]

/-- A body cut off in the middle: status 400, no batch handed over. -/
theorem serveHTTP_malformed_witness :
    sampleDecode truncatedBody = .error ⟨str "unexpected EOF"⟩ ∧
    ((sampleTrigger acceptAll).ServeHTTP sampleDecode sampleClock
      ⟨some (str "d1"), truncatedBody⟩).statuses = [400] ∧
    ((sampleTrigger acceptAll).ServeHTTP sampleDecode sampleClock
      ⟨some (str "d1"), truncatedBody⟩).callbacks = [] :=
  ⟨rfl,
   serveHTTP_malformed (sampleTrigger acceptAll) sampleDecode sampleClock
     ⟨some (str "d1"), truncatedBody⟩ ⟨str "unexpected EOF"⟩ rfl⟩

/-- Claim C7: when the body decodes, the handler calls the callback exactly once, writes
exactly one status, and that status is 500 if and only if the callback returned an error
and 200 if and only if it returned none. -/
theorem serveHTTP_status (h : handler)
    (jsonDecode : GoString → Except GoError atrainEvent) (now : Nat → Time) (r : Request)
    (event : atrainEvent) (hdec : jsonDecode r.Body = .ok event) :
    ∃ batch, (h.ServeHTTP jsonDecode now r).callbacks = [batch] ∧
      (h.ServeHTTP jsonDecode now r).statuses.length = 1 ∧
      ((h.ServeHTTP jsonDecode now r).statuses = [500] ↔ ∃ e, h.callback batch = some e) ∧
      ((h.ServeHTTP jsonDecode now r).statuses = [200] ↔ h.callback batch = none) := by
  obtain ⟨hcalls, hstat⟩ := serveHTTP_decoded h jsonDecode now r event hdec
  refine ⟨batchOf h now (URLParam r) event, hcalls, ?_⟩
  rw [hstat]
  cases h.callback (batchOf h now (URLParam r) event) <;> simp

/-- The scenario's body with a processor that rejects the batch: one call, status 500. -/
theorem serveHTTP_status_witness :
    sampleDecode sampleBody = .ok ⟨[str "/a"], [str "/b"]⟩ ∧
    ((sampleTrigger rejectAll).ServeHTTP sampleDecode sampleClock
        ⟨some (str "d1"), sampleBody⟩).statuses = [500] ∧
    ∃ batch, ((sampleTrigger rejectAll).ServeHTTP sampleDecode sampleClock
        ⟨some (str "d1"), sampleBody⟩).callbacks = [batch] ∧
      ((sampleTrigger rejectAll).ServeHTTP sampleDecode sampleClock
        ⟨some (str "d1"), sampleBody⟩).statuses.length = 1 ∧
      (((sampleTrigger rejectAll).ServeHTTP sampleDecode sampleClock
          ⟨some (str "d1"), sampleBody⟩).statuses = [500] ↔
        ∃ e, (sampleTrigger rejectAll).callback batch = some e) ∧
      (((sampleTrigger rejectAll).ServeHTTP sampleDecode sampleClock
          ⟨some (str "d1"), sampleBody⟩).statuses = [200] ↔
        (sampleTrigger rejectAll).callback batch = none) :=
  ⟨rfl, by decide,
   serveHTTP_status (sampleTrigger rejectAll) sampleDecode sampleClock
     ⟨some (str "d1"), sampleBody⟩ ⟨[str "/a"], [str "/b"]⟩ rfl⟩

/-- Claim C8, as stated, fails: the configuration has one drive whose ID is the empty
string, with the rule `("/a", "/x")`, and no global rule; no append writes over the
global rules. A request without drive identifier is served with that drive's rules
(folders `/x`, `/b`), not with the global rewriter (folders `/a`, `/b`). -/
theorem unnamed_drive_shadows_global :
    New autoscan.NewRewriter sampleMemory unnamedDriveConfig = .ok unnamedDriveTrigger ∧
    unnamedDriveConfig.Drives = [⟨[], ⟨0, 0, 1, 1⟩⟩] ∧
    unnamedDriveConfig.Rewrite.valid sampleMemory ∧
    ¬ overwrites ⟨0, 0, 1, 1⟩ unnamedDriveConfig.Rewrite unnamedDriveConfig.Rewrite ∧
    sampleDecode sampleBody = .ok ⟨[str "/a"], [str "/b"]⟩ ∧
    ((unnamedDriveTrigger acceptAll).ServeHTTP sampleDecode sampleClock
        ⟨none, sampleBody⟩).callbacks.map (List.map Scan.Folder) = [[str "/x", str "/b"]] ∧
    ¬ ∃ g, autoscan.NewRewriter (unnamedDriveConfig.Rewrite.read sampleMemory) = .ok g ∧
      ∃ batch, ((unnamedDriveTrigger acceptAll).ServeHTTP sampleDecode sampleClock
          ⟨none, sampleBody⟩).callbacks = [batch] ∧
        batch.map Scan.Folder = ([str "/a"] ++ [str "/b"]).map g := by
  have hcalls : ((unnamedDriveTrigger acceptAll).ServeHTTP sampleDecode sampleClock
      ⟨none, sampleBody⟩).callbacks.map (List.map Scan.Folder) = [[str "/x", str "/b"]] := by
    decide
  have hvalid : unnamedDriveConfig.Rewrite.valid sampleMemory := by
    unfold Slice.valid
    decide
  have hkept :
      ¬ overwrites ⟨0, 0, 1, 1⟩ unnamedDriveConfig.Rewrite unnamedDriveConfig.Rewrite := by
    unfold overwrites
    decide
  refine ⟨rfl, rfl, hvalid, hkept, rfl, hcalls, ?_⟩
  rintro ⟨g, hg, batch, hbatch, hfold⟩
  have hglobal : autoscan.NewRewriter (unnamedDriveConfig.Rewrite.read sampleMemory) =
      .ok (applyRules []) := rfl
  rw [hglobal] at hg
  have hgeq : applyRules [] = g := Except.ok.inj hg
  rw [hbatch] at hcalls
  simp only [List.map_cons, List.map_nil, List.cons.injEq, and_true] at hcalls
  rw [hcalls, ← hgeq] at hfold
  revert hfold
  decide

/-- Claim C8, amended: when a request carries no drive identifier, no configured drive has
the empty string as its ID, and no append of `New` writes over the global rules, the
handler rewrites every path with the global rewriter. -/
theorem serveHTTP_no_drive (NewRewriter : RewriterCompiler) (mem : Memory) (c : Config)
    (trigger : HTTPTrigger) (callback : ProcessorFunc)
    (jsonDecode : GoString → Except GoError atrainEvent) (now : Nat → Time) (r : Request)
    (event : atrainEvent)
    (hnew : New NewRewriter mem c = .ok trigger)
    (hdrive : r.drive = none)
    (hunnamed : ∀ d ∈ c.Drives, d.ID ≠ [])
    (hvalid : c.Rewrite.valid mem)
    (hkept : ∀ d ∈ c.Drives, ¬ overwrites d.Rewrite c.Rewrite c.Rewrite)
    (hdec : jsonDecode r.Body = .ok event) :
    ∃ g, NewRewriter (c.Rewrite.read mem) = .ok g ∧
      ∃ batch, ((trigger callback).ServeHTTP jsonDecode now r).callbacks = [batch] ∧
        batch.map Scan.Folder = (event.Created ++ event.Deleted).map g := by
  obtain ⟨g, hg, hrw⟩ := new_unknown_key NewRewriter mem c trigger [] hnew hunnamed hvalid
    hkept
  have hparam : URLParam r = [] := by simp [URLParam, hdrive]
  refine ⟨g, hg, batchOf (trigger callback) now (URLParam r) event,
    (serveHTTP_decoded _ jsonDecode now r event hdec).1, ?_⟩
  rw [batchOf_folders, hparam, hrw callback]

/-- The scenario's configuration, whose only drive is `d1`, and a request without drive
identifier: the folders are those of the global rewriter, `/a` and `/b`. -/
theorem serveHTTP_no_drive_witness :
    New autoscan.NewRewriter sampleMemory sampleConfig = .ok sampleTrigger ∧
    (∀ d ∈ sampleConfig.Drives, d.ID ≠ []) ∧
    sampleConfig.Rewrite.valid sampleMemory ∧
    (∀ d ∈ sampleConfig.Drives,
      ¬ overwrites d.Rewrite sampleConfig.Rewrite sampleConfig.Rewrite) ∧
    sampleDecode sampleBody = .ok ⟨[str "/a"], [str "/b"]⟩ ∧
    ∃ g, autoscan.NewRewriter (sampleConfig.Rewrite.read sampleMemory) = .ok g ∧
      ∃ batch, ((sampleTrigger acceptAll).ServeHTTP sampleDecode sampleClock
          ⟨none, sampleBody⟩).callbacks = [batch] ∧
        batch.map Scan.Folder = ([str "/a"] ++ [str "/b"]).map g :=
  have hunnamed : ∀ d ∈ sampleConfig.Drives, d.ID ≠ [] := by
    intro d hd
    have hd : d = ⟨str "d1", ⟨0, 0, 1, 1⟩⟩ := by simpa [sampleConfig] using hd
    subst hd
    decide
  have hvalid : sampleConfig.Rewrite.valid sampleMemory := by
    unfold Slice.valid
    decide
  have hkept : ∀ d ∈ sampleConfig.Drives,
      ¬ overwrites d.Rewrite sampleConfig.Rewrite sampleConfig.Rewrite := by
    intro d hd
    have hd : d = ⟨str "d1", ⟨0, 0, 1, 1⟩⟩ := by simpa [sampleConfig] using hd
    subst hd
    unfold overwrites
    decide
  ⟨rfl, hunnamed, hvalid, hkept, rfl,
   serveHTTP_no_drive autoscan.NewRewriter sampleMemory sampleConfig sampleTrigger acceptAll
     sampleDecode sampleClock ⟨none, sampleBody⟩ ⟨[str "/a"], [str "/b"]⟩ rfl rfl hunnamed
     hvalid hkept rfl⟩

/-- Claim C10 fails on the code at `nestedConfig`: drive `d1` has the rules `base[:1]` and
drive `d2` the rules `base[:2]` of one array with four cells, the global rule is
`("/g", "/G")`. The append of `New` for `d1` writes the global rule in place over
`base[1]`, the rule `("/r1", "/z")` of `d2`, before `d2` is compiled. For the key `d2`
the trigger's rewriter leaves `/r1` as it is, while the rewriter compiled from the rules
of `d2` followed by the global rules turns it into `/z`. -/
theorem configured_drive_rules_overwritten :
    nestedConfig.Drives = [⟨str "d1", ⟨0, 0, 1, 4⟩⟩, ⟨str "d2", ⟨0, 0, 2, 4⟩⟩] ∧
    Slice.valid ⟨0, 0, 1, 4⟩ nestedMemory ∧
    Slice.valid ⟨0, 0, 2, 4⟩ nestedMemory ∧
    nestedConfig.Rewrite.valid nestedMemory ∧
    New autoscan.NewRewriter nestedMemory nestedConfig = .ok nestedTrigger ∧
    (nestedTrigger acceptAll).rewrite (str "d2") (str "/r1") = str "/r1" ∧
    Slice.read ⟨0, 0, 2, 4⟩ nestedMemory ++ nestedConfig.Rewrite.read nestedMemory =
      [⟨str "/r0", str "/x"⟩, ⟨str "/r1", str "/z"⟩, ⟨str "/g", str "/G"⟩] ∧
    (autoscan.NewRewriter
        (Slice.read ⟨0, 0, 2, 4⟩ nestedMemory ++ nestedConfig.Rewrite.read nestedMemory)).map
      (fun r => r (str "/r1")) = .ok (str "/z") := by
  refine ⟨rfl, ?_, ?_, ?_, rfl, by decide, by decide, rfl⟩
  · unfold Slice.valid
    decide
  · unfold Slice.valid
    decide
  · unfold Slice.valid
    decide

end a_train
